import Mathlib

set_option maxRecDepth 100000

/-!
Shallow embedding of the PNGrs chunk codec.

The definitions below are translated from the Rust sources:
* `src/src/png/chunk/chunk_type.rs` — the `ChunkType` 4-byte identifier,
* `src/src/png/chunk.rs`            — the current `Chunk` record codec,
* `src/src/chunk.rs`                — the earlier revision of the `Chunk` codec,
and from the `crc` crate's table-less CRC-32/ISO-HDLC algorithm that both
revisions call through `Crc::<u32>::new(&CRC_32_ISO_HDLC).checksum`.

Machine integers are modelled as `Nat`: a `u8` is a `Nat` below 256, a `u32` a
`Nat` below `2 ^ 32`; byte buffers are `List Nat`.
-/

/-- Big-endian byte serialization of a 32-bit word, modelling `u32::to_be_bytes`
as used by `Chunk::as_bytes`. -/
def u32BE (n : Nat) : List Nat :=
  [n / 2 ^ 24 % 256, n / 2 ^ 16 % 256, n / 2 ^ 8 % 256, n % 256]

/-- Big-endian deserialization, modelling `u32::from_be_bytes` applied to a
4-byte slice. -/
def u32FromBE (l : List Nat) : Nat :=
  l.foldl (fun a b => a * 256 + b) 0

/-- The reflected CRC-32 polynomial `0xEDB88320` of CRC-32/ISO-HDLC (the PNG
polynomial). -/
def crcPoly : Nat := 0xEDB88320

/-- One bit step of the reflected CRC-32 computation: shift right, conditionally
xor the reflected polynomial when the dropped bit was set. -/
def crcStep (c : Nat) : Nat :=
  if c % 2 = 1 then c / 2 ^^^ crcPoly else c / 2

/-- `n` iterated CRC bit steps. -/
def crcStepN : Nat → Nat → Nat
  | 0, c => c
  | n + 1, c => crcStepN n (crcStep c)

/-- Fold one message byte into the CRC state: xor the byte into the low bits of
the state, then run 8 bit steps. -/
def crcUpdateByte (c b : Nat) : Nat := crcStepN 8 (c ^^^ b)

/-- CRC-32/ISO-HDLC checksum of a byte sequence (init `0xFFFFFFFF`, xorout
`0xFFFFFFFF`, reflected), modelling the `crc` crate's
`Crc::<u32>::new(&CRC_32_ISO_HDLC).checksum(data)`. -/
def crc32 (data : List Nat) : Nat :=
  data.foldl crcUpdateByte 0xFFFFFFFF ^^^ 0xFFFFFFFF

/-- A PNG chunk type code: 4 raw bytes, from `struct ChunkType` in
`src/src/png/chunk/chunk_type.rs` (identical in `src/src/chunk_type.rs`).
The Rust field is a `[u8; 4]`; the embedding carries the 4 bytes as a list. -/
structure ChunkType where
  code : List Nat
deriving DecidableEq

/-- `ChunkTypeError` of `src/src/png/chunk/chunk_type.rs`. -/
inductive ChunkTypeError where
  | InvalidLength (n : Nat)
  | InvalidByte (b : Nat)
deriving DecidableEq

/-- `ChunkType::bytes`. -/
def ChunkType.bytes (t : ChunkType) : List Nat := t.code

/-- The byte ranges rejected by `ChunkType::try_from`'s match arm
`0..=64 | 91..=96 | 123..=255`: every `u8` that is not an ASCII letter. -/
def invalidTypeByte (c : Nat) : Bool :=
  c ≤ 64 || (91 ≤ c && c ≤ 96) || 123 ≤ c

/-- `ChunkType::try_from(value: [u8; 4])`: scan the bytes in order and bail at
the first byte that is not an ASCII letter. -/
def ChunkType.try_from (value : List Nat) : Except ChunkTypeError ChunkType :=
  match value.find? invalidTypeByte with
  | some c => .error (.InvalidByte c)
  | none => .ok ⟨value⟩

/-- `Display for ChunkType`: the code bytes reinterpreted as characters. -/
def ChunkType.render (t : ChunkType) : List Char :=
  t.code.map Char.ofNat

/-- `ChunkType::is_property_bit_on`: tests bit 5 (value `0x20 = 1 <<< 5`) of the
given 1-indexed code byte. -/
def ChunkType.is_property_bit_on (t : ChunkType) (byte : Nat) : Bool :=
  t.code.getD (byte - 1) 0 &&& (1 <<< 5) != 0

/-- `ChunkType::is_critical`. -/
def ChunkType.is_critical (t : ChunkType) : Bool := !t.is_property_bit_on 1

/-- `ChunkType::is_public`. -/
def ChunkType.is_public (t : ChunkType) : Bool := !t.is_property_bit_on 2

/-- `ChunkType::is_reserved_bit_valid`. -/
def ChunkType.is_reserved_bit_valid (t : ChunkType) : Bool := !t.is_property_bit_on 3

/-- `ChunkType::is_safe_to_copy`. -/
def ChunkType.is_safe_to_copy (t : ChunkType) : Bool := t.is_property_bit_on 4

/-- `ChunkType::is_valid`. -/
def ChunkType.is_valid (t : ChunkType) : Bool := t.is_reserved_bit_valid

/-- `struct Chunk` of `src/src/png/chunk.rs` (same fields in the earlier
revision `src/src/chunk.rs`). -/
structure Chunk where
  length : Nat
  chunk_type : ChunkType
  data : List Nat
  crc : Nat
deriving DecidableEq

/-- `ChunkError` variants of both revisions, plus `typeError` for the
propagated `ChunkType` construction failure (both revisions propagate it with
the `?` operator). The earlier revision never produces `NoCrcProvided`. -/
inductive ChunkError where
  | InvalidCrc (provided actual : Nat)
  | NoDataLengthProvided
  | NoChunkTypeProvided
  | NonMatchingDataLength (provided actual : Nat)
  | NoCrcProvided
  | typeError (e : ChunkTypeError)
deriving DecidableEq

/-- `Chunk::calculate_crc`: CRC-32/ISO-HDLC over the type's 4 bytes followed by
the data buffer. -/
def Chunk.calculate_crc (chunk_type : ChunkType) (data : List Nat) : Nat :=
  crc32 (chunk_type.bytes ++ data)

/-- `Chunk::new`: length is the byte length of the data, crc is computed.
The Rust code `expect`s that the length fits in a `u32`; theorems about
serialization carry that bound as a hypothesis. -/
def Chunk.new (chunk_type : ChunkType) (data : List Nat) : Chunk :=
  { length := data.length
    chunk_type := chunk_type
    data := data
    crc := Chunk.calculate_crc chunk_type data }

/-- `Chunk::as_bytes`: big-endian length, type bytes, data, big-endian crc. -/
def Chunk.as_bytes (c : Chunk) : List Nat :=
  u32BE c.length ++ (c.chunk_type.bytes ++ (c.data ++ u32BE c.crc))

/-- `Chunk::try_from(&[u8])` of the current revision `src/src/png/chunk.rs`:
length guard, big-endian length, type guard, type construction, payload-length
guard, payload, crc guard, big-endian crc, crc comparison.  `split_at` on a
slice whose length passed the guard is modelled by `take`/`drop`. -/
def Chunk.try_from (value : List Nat) : Except ChunkError Chunk :=
  if value.length < 4 then .error .NoDataLengthProvided else
  let length := u32FromBE (value.take 4)
  let v1 := value.drop 4
  if v1.length < 4 then .error .NoChunkTypeProvided else
  match ChunkType.try_from (v1.take 4) with
  | .error e => .error (.typeError e)
  | .ok chunk_type =>
    let v2 := v1.drop 4
    if v2.length < length then .error (.NonMatchingDataLength length v2.length) else
    let data := v2.take length
    let v3 := v2.drop length
    if v3.length < 4 then .error .NoCrcProvided else
    let crc := u32FromBE (v3.take 4)
    let actual_crc := Chunk.calculate_crc chunk_type data
    if crc ≠ actual_crc then .error (.InvalidCrc crc actual_crc)
    else .ok { length, chunk_type, data, crc }

/-- `Chunk::try_from(&[u8])` of the earlier revision `src/src/chunk.rs`: unlike
the current revision it demands the input be exactly consumed
(`value.len() != length as usize + 4` after length and type are split off) and
has no separate `NoCrcProvided` step.  The `value.len() - 4` in the error
payload is `usize` subtraction, modelled with its release-mode wrapping
semantics. -/
def Chunk.try_from_old (value : List Nat) : Except ChunkError Chunk :=
  if value.length < 4 then .error .NoDataLengthProvided else
  let length := u32FromBE (value.take 4)
  let v1 := value.drop 4
  if v1.length < 4 then .error .NoChunkTypeProvided else
  match ChunkType.try_from (v1.take 4) with
  | .error e => .error (.typeError e)
  | .ok chunk_type =>
    let v2 := v1.drop 4
    if v2.length ≠ length + 4 then
      .error (.NonMatchingDataLength length ((v2.length + 2 ^ 64 - 4) % 2 ^ 64)) else
    let data := v2.take length
    let crc := u32FromBE (v2.drop length)
    let actual_crc := Chunk.calculate_crc chunk_type data
    if crc ≠ actual_crc then .error (.InvalidCrc crc actual_crc)
    else .ok { length, chunk_type, data, crc }

/-- The bytes of the type code "RuSt" used throughout the repository's tests. -/
def rustCode : List Nat := [82, 117, 83, 116]

/-- UTF-8 bytes of "This is where your secret message will be!" (42 bytes). -/
def secretMessage : List Nat :=
  [84, 104, 105, 115, 32, 105, 115, 32, 119, 104, 101, 114, 101, 32, 121, 111,
   117, 114, 32, 115, 101, 99, 114, 101, 116, 32, 109, 101, 115, 115, 97, 103,
   101, 32, 119, 105, 108, 108, 32, 98, 101, 33]

example : crc32 (rustCode ++ secretMessage) = 2882656334 := by decide
example : crc32 rustCode = 3565422908 := by decide
example : secretMessage.length = 42 := by decide

/-! Basic facts about the byte-level helpers. -/

theorem u32BE_length (n : Nat) : (u32BE n).length = 4 := by
  simp [u32BE]

theorem u32FromBE_u32BE {n : Nat} (h : n < 2 ^ 32) : u32FromBE (u32BE n) = n := by
  simp only [u32BE, u32FromBE, List.foldl]
  omega

theorem u32FromBE_lt (b0 b1 b2 b3 : Nat) (h0 : b0 < 256) (h1 : b1 < 256)
    (h2 : b2 < 256) (h3 : b3 < 256) : u32FromBE [b0, b1, b2, b3] < 2 ^ 32 := by
  simp only [u32FromBE, List.foldl]
  omega

/-! Linearity, bounds and injectivity-at-zero of the CRC bit step. -/

theorem xorLeftComm (a b c : Nat) : a ^^^ (b ^^^ c) = b ^^^ (a ^^^ c) := by
  rw [← Nat.xor_assoc, Nat.xor_comm a b, Nat.xor_assoc]

theorem crcStep_xor (a b : Nat) : crcStep (a ^^^ b) = crcStep a ^^^ crcStep b := by
  have hx : (a ^^^ b) % 2 = (a + b) % 2 := Nat.xor_mod_two_eq
  have hd : (a ^^^ b) / 2 = a / 2 ^^^ b / 2 := Nat.xor_div_two
  rcases Nat.mod_two_eq_zero_or_one a with ha | ha <;>
    rcases Nat.mod_two_eq_zero_or_one b with hb | hb
  · have h1 : (a ^^^ b) % 2 = 0 := by omega
    simp only [crcStep, ha, hb, h1, hd]
    norm_num
  · have h1 : (a ^^^ b) % 2 = 1 := by omega
    simp only [crcStep, ha, hb, h1, hd]
    norm_num
    simp [Nat.xor_assoc, Nat.xor_comm, xorLeftComm]
  · have h1 : (a ^^^ b) % 2 = 1 := by omega
    simp only [crcStep, ha, hb, h1, hd]
    norm_num
    simp [Nat.xor_assoc, Nat.xor_comm, xorLeftComm]
  · have h1 : (a ^^^ b) % 2 = 0 := by omega
    simp only [crcStep, ha, hb, h1, hd]
    norm_num
    simp [Nat.xor_assoc, Nat.xor_comm, xorLeftComm]
    rw [Nat.xor_cancel_left]

theorem crcStep_zero : crcStep 0 = 0 := rfl

theorem crcStep_lt {c : Nat} (h : c < 2 ^ 32) : crcStep c < 2 ^ 32 := by
  unfold crcStep
  split
  · exact Nat.xor_lt_two_pow (by omega) (by norm_num [crcPoly])
  · omega

theorem crcStep_ne_zero {c : Nat} (hlt : c < 2 ^ 32) (h : c ≠ 0) : crcStep c ≠ 0 := by
  unfold crcStep
  split
  · intro h0
    have : c / 2 = crcPoly := Nat.xor_eq_zero.mp h0
    simp only [crcPoly] at this
    omega
  · intro h0
    omega

theorem crcStepN_xor (n a b : Nat) :
    crcStepN n (a ^^^ b) = crcStepN n a ^^^ crcStepN n b := by
  induction n generalizing a b with
  | zero => rfl
  | succ n ih => simp only [crcStepN, crcStep_xor, ih]

theorem crcStepN_lt {c : Nat} (n : Nat) (h : c < 2 ^ 32) : crcStepN n c < 2 ^ 32 := by
  induction n generalizing c with
  | zero => exact h
  | succ n ih => exact ih (crcStep_lt h)

theorem crcStepN_ne_zero {c : Nat} (n : Nat) (hlt : c < 2 ^ 32) (h : c ≠ 0) :
    crcStepN n c ≠ 0 := by
  induction n generalizing c with
  | zero => exact h
  | succ n ih => exact ih (crcStep_lt hlt) (crcStep_ne_zero hlt h)

theorem crcStepN_add (m n c : Nat) : crcStepN (m + n) c = crcStepN n (crcStepN m c) := by
  induction m generalizing c with
  | zero => rw [Nat.zero_add]; rfl
  | succ m ih =>
    have : m + 1 + n = (m + n) + 1 := by omega
    rw [this]
    simp only [crcStepN, ih]

theorem crcUpdateByte_xor (c d b : Nat) :
    crcUpdateByte (c ^^^ d) b = crcUpdateByte c b ^^^ crcStepN 8 d := by
  unfold crcUpdateByte
  rw [Nat.xor_comm c d, Nat.xor_assoc, Nat.xor_comm d (c ^^^ b)]
  exact crcStepN_xor 8 (c ^^^ b) d

theorem crcFold_xor (m : List Nat) (c d : Nat) :
    m.foldl crcUpdateByte (c ^^^ d) =
      m.foldl crcUpdateByte c ^^^ crcStepN (8 * m.length) d := by
  induction m generalizing c d with
  | nil => simp [crcStepN]
  | cons b m ih =>
    simp only [List.foldl_cons, List.length_cons]
    rw [crcUpdateByte_xor, ih]
    rw [← crcStepN_add]
    have h8 : 8 * (m.length + 1) = 8 + 8 * m.length := by omega
    rw [h8]

/-- Flipping a single bit anywhere in a message changes its CRC-32/ISO-HDLC
checksum: the checksum is sensitive to every covered bit. -/
theorem crc32_flip_ne (pre suf : List Nat) (b j : Nat) (hj : j < 32) :
    crc32 (pre ++ (b ^^^ 2 ^ j) :: suf) ≠ crc32 (pre ++ b :: suf) := by
  unfold crc32
  simp only [List.foldl_append, List.foldl_cons]
  have hupd : crcUpdateByte (pre.foldl crcUpdateByte 0xFFFFFFFF) (b ^^^ 2 ^ j) =
      crcUpdateByte (pre.foldl crcUpdateByte 0xFFFFFFFF) b ^^^ crcStepN 8 (2 ^ j) := by
    unfold crcUpdateByte
    rw [← Nat.xor_assoc]
    exact crcStepN_xor 8 _ (2 ^ j)
  rw [hupd, crcFold_xor]
  intro heq
  have h1 := Nat.xor_left_inj.mp heq
  have h2 : crcStepN (8 * suf.length) (crcStepN 8 (2 ^ j)) = 0 :=
    Nat.xor_right_inj.mp (h1.trans (Nat.xor_zero _).symm)
  have hp : (2 : Nat) ^ j < 2 ^ 32 := Nat.pow_lt_pow_right (by omega) hj
  have hnz : (2 : Nat) ^ j ≠ 0 := by positivity
  rw [← crcStepN_add] at h2
  exact crcStepN_ne_zero (8 + 8 * suf.length) hp hnz h2

/-! Bounds on the CRC state and checksum. -/

theorem crcFold_lt : ∀ (m : List Nat) (c : Nat), c < 2 ^ 32 →
    (∀ b ∈ m, b < 2 ^ 32) → m.foldl crcUpdateByte c < 2 ^ 32
  | [], _, hc, _ => hc
  | b :: m, c, hc, hm => by
    simp only [List.foldl_cons]
    exact crcFold_lt m _
      (crcStepN_lt 8 (Nat.xor_lt_two_pow hc (hm b (List.mem_cons_self b m))))
      (fun x hx => hm x (List.mem_cons_of_mem b hx))

theorem crc32_lt {m : List Nat} (hm : ∀ b ∈ m, b < 2 ^ 32) : crc32 m < 2 ^ 32 := by
  unfold crc32
  exact Nat.xor_lt_two_pow (crcFold_lt m _ (by norm_num) hm) (by norm_num)

/-! Evaluation of the current parser on a well-framed record. -/

theorem Chunk.try_from_framed (tb data : List Nat) (crcv : Nat)
    (htb : tb.length = 4) (hL : data.length < 2 ^ 32) (hcrc : crcv < 2 ^ 32) :
    Chunk.try_from (u32BE data.length ++ (tb ++ (data ++ u32BE crcv))) =
      match ChunkType.try_from tb with
      | .error e => .error (.typeError e)
      | .ok ct =>
        if crcv ≠ Chunk.calculate_crc ct data
        then .error (.InvalidCrc crcv (Chunk.calculate_crc ct data))
        else .ok ⟨data.length, ct, data, crcv⟩ := by
  have e1 : (u32BE data.length ++ (tb ++ (data ++ u32BE crcv))).take 4 = u32BE data.length :=
    List.take_left' (u32BE_length _)
  have e2 : (u32BE data.length ++ (tb ++ (data ++ u32BE crcv))).drop 4 =
      tb ++ (data ++ u32BE crcv) := List.drop_left' (u32BE_length _)
  have e3 : (tb ++ (data ++ u32BE crcv)).take 4 = tb := List.take_left' htb
  have e4 : (tb ++ (data ++ u32BE crcv)).drop 4 = data ++ u32BE crcv := List.drop_left' htb
  have e5 : (data ++ u32BE crcv).take data.length = data := List.take_left' rfl
  have e6 : (data ++ u32BE crcv).drop data.length = u32BE crcv := List.drop_left' rfl
  have e7 : (u32BE crcv).take 4 = u32BE crcv := by simp [u32BE]
  have l1 : (u32BE data.length ++ (tb ++ (data ++ u32BE crcv))).length = 12 + data.length := by
    simp only [List.length_append, u32BE_length, htb]
    omega
  have l2 : (tb ++ (data ++ u32BE crcv)).length = 8 + data.length := by
    simp only [List.length_append, u32BE_length, htb]
    omega
  have l3 : (data ++ u32BE crcv).length = data.length + 4 := by
    simp only [List.length_append, u32BE_length]
  simp only [Chunk.try_from, e1, e2, e3, e4, l1, l2, l3, u32FromBE_u32BE hL, e5, e6, e7,
    u32BE_length, u32FromBE_u32BE hcrc]
  rw [if_neg (by omega), if_neg (by omega)]
  cases h : ChunkType.try_from tb with
  | error e => rfl
  | ok ct =>
    dsimp only
    rw [if_neg (by omega), if_neg (by omega)]

/-! Construction of type codes from all-letter byte arrays. -/

theorem ChunkType.try_from_ok_of_valid {l : List Nat}
    (h : ∀ b ∈ l, invalidTypeByte b = false) :
    ChunkType.try_from l = Except.ok ⟨l⟩ := by
  unfold ChunkType.try_from
  rw [List.find?_eq_none.mpr (fun x hx => by simp [h x hx])]

/-- C1: serializing a freshly built record and parsing it back succeeds and
returns the record unchanged. -/
theorem chunk_roundtrip (t : ChunkType) (data : List Nat)
    (ht : ∀ b ∈ t.code, invalidTypeByte b = false)
    (htlen : t.code.length = 4)
    (hdata : ∀ b ∈ data, b < 256)
    (hfit : data.length < 2 ^ 32) :
    Chunk.try_from (Chunk.new t data).as_bytes = Except.ok (Chunk.new t data) := by
  have hbytes : ∀ b ∈ t.code ++ data, b < 2 ^ 32 := by
    intro b hb
    rcases List.mem_append.mp hb with hb | hb
    · have := ht b hb
      simp only [invalidTypeByte, Bool.or_eq_false_iff, decide_eq_false_iff_not] at this
      omega
    · have := hdata b hb
      omega
  have hcrc : Chunk.calculate_crc t data < 2 ^ 32 := crc32_lt hbytes
  show Chunk.try_from
      (u32BE data.length ++ (t.code ++ (data ++ u32BE (Chunk.calculate_crc t data)))) = _
  rw [Chunk.try_from_framed t.code data _ htlen hfit hcrc]
  rw [ChunkType.try_from_ok_of_valid ht]
  dsimp only
  rw [if_neg (by intro hne; exact hne rfl)]
  rfl

/-- Closed-form instance of `chunk_roundtrip` at the "RuSt" type with empty data. -/
theorem chunk_roundtrip_witness :
    Chunk.try_from (Chunk.new ⟨rustCode⟩ []).as_bytes = Except.ok (Chunk.new ⟨rustCode⟩ []) :=
  chunk_roundtrip ⟨rustCode⟩ [] (by decide) (by decide) (by decide) (by decide)

/-- C2: every successfully constructed record — fresh or parsed — has its crc
equal to the CRC-32/ISO-HDLC of type bytes plus data, and its length equal to
the byte length of its data. -/
theorem chunk_invariants :
    (∀ (t : ChunkType) (data : List Nat),
        (Chunk.new t data).crc =
          Chunk.calculate_crc (Chunk.new t data).chunk_type (Chunk.new t data).data ∧
        (Chunk.new t data).length = (Chunk.new t data).data.length) ∧
    (∀ (v : List Nat) (c : Chunk), Chunk.try_from v = Except.ok c →
        c.crc = Chunk.calculate_crc c.chunk_type c.data ∧ c.length = c.data.length) := by
  constructor
  · intro t data
    exact ⟨rfl, rfl⟩
  · intro v c h
    simp only [Chunk.try_from] at h
    split at h
    · simp at h
    split at h
    · simp at h
    split at h
    · simp at h
    rename_i ct hct
    split at h
    · simp at h
    rename_i hlen
    split at h
    · simp at h
    split at h
    · simp at h
    rename_i hcrc
    rw [Except.ok.injEq] at h
    subst h
    refine ⟨by simpa using hcrc, ?_⟩
    simp only [List.length_take]
    omega

/-- Closed-form instance of `chunk_invariants` on a concrete parsed record. -/
theorem chunk_invariants_witness :
    ((Chunk.new ⟨rustCode⟩ []).crc =
        Chunk.calculate_crc (Chunk.new ⟨rustCode⟩ []).chunk_type (Chunk.new ⟨rustCode⟩ []).data ∧
      (Chunk.new ⟨rustCode⟩ []).length = (Chunk.new ⟨rustCode⟩ []).data.length) ∧
    ((Chunk.mk 0 ⟨rustCode⟩ [] 3565422908).crc =
        Chunk.calculate_crc (Chunk.mk 0 ⟨rustCode⟩ [] 3565422908).chunk_type
          (Chunk.mk 0 ⟨rustCode⟩ [] 3565422908).data ∧
      (Chunk.mk 0 ⟨rustCode⟩ [] 3565422908).length =
        (Chunk.mk 0 ⟨rustCode⟩ [] 3565422908).data.length) :=
  ⟨chunk_invariants.1 ⟨rustCode⟩ [],
    chunk_invariants.2 [0, 0, 0, 0, 82, 117, 83, 116, 212, 132, 9, 60]
      (Chunk.mk 0 ⟨rustCode⟩ [] 3565422908) (by rfl)⟩

/-- C3: the current parser checks its input in a fixed order with a distinct
error at each step: missing length field, missing type field, invalid type
byte, insufficient payload, missing crc field, and finally crc mismatch. -/
theorem try_from_error_order (v : List Nat) :
    (v.length < 4 → Chunk.try_from v = .error .NoDataLengthProvided) ∧
    (¬ v.length < 4 → (v.drop 4).length < 4 →
      Chunk.try_from v = .error .NoChunkTypeProvided) ∧
    (¬ v.length < 4 → ¬ (v.drop 4).length < 4 →
      (∀ e, ChunkType.try_from ((v.drop 4).take 4) = .error e →
        Chunk.try_from v = .error (.typeError e)) ∧
      (∀ ct, ChunkType.try_from ((v.drop 4).take 4) = .ok ct →
        (((v.drop 4).drop 4).length < u32FromBE (v.take 4) →
          Chunk.try_from v = .error
            (.NonMatchingDataLength (u32FromBE (v.take 4)) ((v.drop 4).drop 4).length)) ∧
        (¬ ((v.drop 4).drop 4).length < u32FromBE (v.take 4) →
          (((v.drop 4).drop 4).drop (u32FromBE (v.take 4))).length < 4 →
            Chunk.try_from v = .error .NoCrcProvided) ∧
        (¬ ((v.drop 4).drop 4).length < u32FromBE (v.take 4) →
          ¬ (((v.drop 4).drop 4).drop (u32FromBE (v.take 4))).length < 4 →
          u32FromBE ((((v.drop 4).drop 4).drop (u32FromBE (v.take 4))).take 4) ≠
              Chunk.calculate_crc ct (((v.drop 4).drop 4).take (u32FromBE (v.take 4))) →
            Chunk.try_from v = .error (.InvalidCrc
              (u32FromBE ((((v.drop 4).drop 4).drop (u32FromBE (v.take 4))).take 4))
              (Chunk.calculate_crc ct
                (((v.drop 4).drop 4).take (u32FromBE (v.take 4)))))))) := by
  refine ⟨?_, ?_, ?_⟩
  · intro h1
    simp only [Chunk.try_from]
    rw [if_pos h1]
  · intro h1 h2
    simp only [Chunk.try_from]
    rw [if_neg h1, if_pos h2]
  · intro h1 h2
    constructor
    · intro e he
      simp only [Chunk.try_from]
      rw [if_neg h1, if_neg h2, he]
    · intro ct hct
      refine ⟨?_, ?_, ?_⟩
      · intro h3
        simp only [Chunk.try_from]
        rw [if_neg h1, if_neg h2, hct]
        dsimp only
        rw [if_pos h3]
      · intro h3 h4
        simp only [Chunk.try_from]
        rw [if_neg h1, if_neg h2, hct]
        dsimp only
        rw [if_neg h3, if_pos h4]
      · intro h3 h4 h5
        simp only [Chunk.try_from]
        rw [if_neg h1, if_neg h2, hct]
        dsimp only
        rw [if_neg h3, if_neg h4, if_pos h5]

/-- Closed-form instance of `try_from_error_order`: a 3-byte input fails with
the missing-length error. -/
theorem try_from_error_order_witness :
    Chunk.try_from [0, 0, 0] = .error .NoDataLengthProvided :=
  (try_from_error_order [0, 0, 0]).1 (by decide)

/-- C4: the current parser ignores trailing bytes after the 4-byte crc — any
successfully parsed input still parses to the same record after appending
arbitrary extra bytes. -/
theorem try_from_ignores_trailing (v : List Nat) (c : Chunk)
    (h : Chunk.try_from v = Except.ok c) (extra : List Nat) :
    Chunk.try_from (v ++ extra) = Except.ok c := by
  simp only [Chunk.try_from] at h
  split at h
  · simp at h
  rename_i h1
  split at h
  · simp at h
  rename_i h2
  split at h
  · simp at h
  rename_i ct hct
  split at h
  · simp at h
  rename_i h3
  split at h
  · simp at h
  rename_i h4
  split at h
  · simp at h
  rename_i h5
  have hv4 : 4 ≤ v.length := by omega
  have hd4 : 4 ≤ (v.drop 4).length := by omega
  have hA2 : (v ++ extra).take 4 = v.take 4 := List.take_append_of_le_length hv4
  have hA3 : (v ++ extra).drop 4 = v.drop 4 ++ extra := List.drop_append_of_le_length hv4
  have hA4 : (v.drop 4 ++ extra).take 4 = (v.drop 4).take 4 :=
    List.take_append_of_le_length hd4
  have hA5 : (v.drop 4 ++ extra).drop 4 = (v.drop 4).drop 4 ++ extra :=
    List.drop_append_of_le_length hd4
  have hwL : u32FromBE (v.take 4) ≤ ((v.drop 4).drop 4).length := by omega
  have hA6 : ((v.drop 4).drop 4 ++ extra).take (u32FromBE (v.take 4)) =
      ((v.drop 4).drop 4).take (u32FromBE (v.take 4)) := List.take_append_of_le_length hwL
  have hA7 : ((v.drop 4).drop 4 ++ extra).drop (u32FromBE (v.take 4)) =
      ((v.drop 4).drop 4).drop (u32FromBE (v.take 4)) ++ extra :=
    List.drop_append_of_le_length hwL
  have hc4 : 4 ≤ (((v.drop 4).drop 4).drop (u32FromBE (v.take 4))).length := by omega
  have hA8 : (((v.drop 4).drop 4).drop (u32FromBE (v.take 4)) ++ extra).take 4 =
      (((v.drop 4).drop 4).drop (u32FromBE (v.take 4))).take 4 :=
    List.take_append_of_le_length hc4
  have hB1 : ¬ (v ++ extra).length < 4 := by
    simp only [List.length_append]
    omega
  have hB2 : ¬ (v.drop 4 ++ extra).length < 4 := by
    simp only [List.length_append]
    omega
  have hB3 : ¬ ((v.drop 4).drop 4 ++ extra).length < u32FromBE (v.take 4) := by
    simp only [List.length_append]
    omega
  have hB4 : ¬ (((v.drop 4).drop 4).drop (u32FromBE (v.take 4)) ++ extra).length < 4 := by
    simp only [List.length_append]
    omega
  simp only [Chunk.try_from, hA2, hA3, hA4, hA5, hA6, hA7, hA8]
  rw [if_neg hB1, if_neg hB2, hct]
  dsimp only
  rw [if_neg hB3, if_neg hB4, if_neg h5]
  exact h

/-- Closed-form instance of `try_from_ignores_trailing`: the serialized
empty-data "RuSt" record still parses after appending a trailing byte. -/
theorem try_from_ignores_trailing_witness :
    Chunk.try_from ([0, 0, 0, 0, 82, 117, 83, 116, 212, 132, 9, 60] ++ [7]) =
      Except.ok (Chunk.mk 0 ⟨rustCode⟩ [] 3565422908) :=
  try_from_ignores_trailing [0, 0, 0, 0, 82, 117, 83, 116, 212, 132, 9, 60]
    (Chunk.mk 0 ⟨rustCode⟩ [] 3565422908) (by rfl) [7]

/-- C5: both parser revisions are total on arbitrary byte input — every input
yields either a record or an error value, never anything else.  In the
embedding each revision is a total function into `Except`; the `usize`
subtraction in the earlier revision's error payload is modelled with wrapping
(release) semantics. -/
theorem try_from_total (v : List Nat) :
    ((∃ c, Chunk.try_from v = Except.ok c) ∨ (∃ e, Chunk.try_from v = Except.error e)) ∧
    ((∃ c, Chunk.try_from_old v = Except.ok c) ∨
      (∃ e, Chunk.try_from_old v = Except.error e)) := by
  constructor
  · cases h : Chunk.try_from v with
    | ok c => exact Or.inl ⟨c, rfl⟩
    | error e => exact Or.inr ⟨e, rfl⟩
  · cases h : Chunk.try_from_old v with
    | ok c => exact Or.inl ⟨c, rfl⟩
    | error e => exact Or.inr ⟨e, rfl⟩

/-! Characterization of the rejected type bytes. -/

theorem invalidTypeByte_eq_false_iff (b : Nat) :
    invalidTypeByte b = false ↔ ((65 ≤ b ∧ b ≤ 90) ∨ (97 ≤ b ∧ b ≤ 122)) := by
  simp only [invalidTypeByte, Bool.or_eq_false_iff, Bool.and_eq_false_iff,
    decide_eq_false_iff_not, not_le]
  omega

theorem invalidTypeByte_eq_true_iff (b : Nat) :
    invalidTypeByte b = true ↔ ¬ ((65 ≤ b ∧ b ≤ 90) ∨ (97 ≤ b ∧ b ≤ 122)) := by
  rw [← invalidTypeByte_eq_false_iff]
  cases invalidTypeByte b <;> simp

/-- C6: constructing a type code from 4 bytes succeeds exactly when every byte
is an ASCII letter (65–90 or 97–122); on success rendering gives back the 4
original characters, and on failure the error carries an offending byte. -/
theorem chunk_type_construction (b0 b1 b2 b3 : Nat) :
    ((((65 ≤ b0 ∧ b0 ≤ 90) ∨ (97 ≤ b0 ∧ b0 ≤ 122)) ∧
      ((65 ≤ b1 ∧ b1 ≤ 90) ∨ (97 ≤ b1 ∧ b1 ≤ 122)) ∧
      ((65 ≤ b2 ∧ b2 ≤ 90) ∨ (97 ≤ b2 ∧ b2 ≤ 122)) ∧
      ((65 ≤ b3 ∧ b3 ≤ 90) ∨ (97 ≤ b3 ∧ b3 ≤ 122))) →
      ChunkType.try_from [b0, b1, b2, b3] = Except.ok ⟨[b0, b1, b2, b3]⟩ ∧
      ChunkType.render ⟨[b0, b1, b2, b3]⟩ =
        [Char.ofNat b0, Char.ofNat b1, Char.ofNat b2, Char.ofNat b3]) ∧
    (¬ (((65 ≤ b0 ∧ b0 ≤ 90) ∨ (97 ≤ b0 ∧ b0 ≤ 122)) ∧
        ((65 ≤ b1 ∧ b1 ≤ 90) ∨ (97 ≤ b1 ∧ b1 ≤ 122)) ∧
        ((65 ≤ b2 ∧ b2 ≤ 90) ∨ (97 ≤ b2 ∧ b2 ≤ 122)) ∧
        ((65 ≤ b3 ∧ b3 ≤ 90) ∨ (97 ≤ b3 ∧ b3 ≤ 122))) →
      ∃ b, ChunkType.try_from [b0, b1, b2, b3] = Except.error (.InvalidByte b) ∧
        ¬ ((65 ≤ b ∧ b ≤ 90) ∨ (97 ≤ b ∧ b ≤ 122)) ∧ b ∈ [b0, b1, b2, b3]) := by
  constructor
  · intro h
    constructor
    · refine ChunkType.try_from_ok_of_valid ?_
      intro b hb
      rw [invalidTypeByte_eq_false_iff]
      simp only [List.mem_cons, List.not_mem_nil, or_false] at hb
      rcases hb with rfl | rfl | rfl | rfl
      · exact h.1
      · exact h.2.1
      · exact h.2.2.1
      · exact h.2.2.2
    · rfl
  · intro h
    cases e0 : invalidTypeByte b0 with
    | true =>
      refine ⟨b0, ?_, (invalidTypeByte_eq_true_iff b0).mp e0, by simp⟩
      simp [ChunkType.try_from, List.find?, e0]
    | false =>
      cases e1 : invalidTypeByte b1 with
      | true =>
        refine ⟨b1, ?_, (invalidTypeByte_eq_true_iff b1).mp e1, by simp⟩
        simp [ChunkType.try_from, List.find?, e0, e1]
      | false =>
        cases e2 : invalidTypeByte b2 with
        | true =>
          refine ⟨b2, ?_, (invalidTypeByte_eq_true_iff b2).mp e2, by simp⟩
          simp [ChunkType.try_from, List.find?, e0, e1, e2]
        | false =>
          cases e3 : invalidTypeByte b3 with
          | true =>
            refine ⟨b3, ?_, (invalidTypeByte_eq_true_iff b3).mp e3, by simp⟩
            simp [ChunkType.try_from, List.find?, e0, e1, e2, e3]
          | false =>
            exact absurd ⟨(invalidTypeByte_eq_false_iff b0).mp e0,
              (invalidTypeByte_eq_false_iff b1).mp e1,
              (invalidTypeByte_eq_false_iff b2).mp e2,
              (invalidTypeByte_eq_false_iff b3).mp e3⟩ h

/-- Closed-form instance of `chunk_type_construction` at "RuSt" (success) and
at "Ru1t" (failure on the digit byte). -/
theorem chunk_type_construction_witness :
    (ChunkType.try_from [82, 117, 83, 116] = Except.ok ⟨[82, 117, 83, 116]⟩ ∧
      ChunkType.render ⟨[82, 117, 83, 116]⟩ =
        [Char.ofNat 82, Char.ofNat 117, Char.ofNat 83, Char.ofNat 116]) ∧
    (∃ b, ChunkType.try_from [82, 117, 49, 116] = Except.error (.InvalidByte b) ∧
      ¬ ((65 ≤ b ∧ b ≤ 90) ∨ (97 ≤ b ∧ b ≤ 122)) ∧ b ∈ [82, 117, 49, 116]) :=
  ⟨(chunk_type_construction 82 117 83 116).1 (by decide),
   (chunk_type_construction 82 117 49 116).2 (by decide)⟩

/-- C7: for every type code, criticality and publicness are each decided by
exactly one outcome of bit `0x20` of bytes 1 and 2 (bit clear means critical,
bit clear means public), and overall validity equals the reserved-bit test,
decided solely by bit `0x20` of byte 3 — independent of all other bits. -/
theorem chunk_type_flags (t : ChunkType) :
    ((t.is_critical = true ↔ t.code.getD 0 0 &&& 32 = 0) ∧
     (t.is_critical = false ↔ ¬ t.code.getD 0 0 &&& 32 = 0)) ∧
    ((t.is_public = true ↔ t.code.getD 1 0 &&& 32 = 0) ∧
     (t.is_public = false ↔ ¬ t.code.getD 1 0 &&& 32 = 0)) ∧
    (t.is_valid = t.is_reserved_bit_valid ∧
     (t.is_valid = true ↔ t.code.getD 2 0 &&& 32 = 0)) ∧
    (∀ t' : ChunkType, t'.code.getD 2 0 &&& 32 = t.code.getD 2 0 &&& 32 →
      t'.is_valid = t.is_valid) := by
  have h32 : (1 : Nat) <<< 5 = 32 := by decide
  refine ⟨⟨?_, ?_⟩, ⟨?_, ?_⟩, ⟨rfl, ?_⟩, ?_⟩
  · simp [ChunkType.is_critical, ChunkType.is_property_bit_on, h32]
  · simp [ChunkType.is_critical, ChunkType.is_property_bit_on, h32]
  · simp [ChunkType.is_public, ChunkType.is_property_bit_on, h32]
  · simp [ChunkType.is_public, ChunkType.is_property_bit_on, h32]
  · simp [ChunkType.is_valid, ChunkType.is_reserved_bit_valid,
      ChunkType.is_property_bit_on, h32]
  · intro t' h
    simp only [ChunkType.is_valid, ChunkType.is_reserved_bit_valid,
      ChunkType.is_property_bit_on, h32, h]

/-- Closed-form instance of `chunk_type_flags` at the "RuSt" code. -/
theorem chunk_type_flags_witness :
    ChunkType.is_valid ⟨[82, 117, 84, 116]⟩ = ChunkType.is_valid ⟨rustCode⟩ :=
  (chunk_type_flags ⟨rustCode⟩).2.2.2 ⟨[82, 117, 84, 116]⟩ (by decide)

/-! Construction failure of type codes containing an invalid byte. -/

theorem ChunkType.try_from_error_of_invalid {l : List Nat}
    (h : ∃ b ∈ l, invalidTypeByte b = true) :
    ∃ b, ChunkType.try_from l = Except.error (.InvalidByte b) := by
  cases hf : l.find? invalidTypeByte with
  | none =>
    rw [List.find?_eq_none] at hf
    rcases h with ⟨b, hb, hv⟩
    exact absurd hv (by simp [hf b hb])
  | some b =>
    exact ⟨b, by simp [ChunkType.try_from, hf]⟩

/-- C8 counterexample: flipping bit 6 of the first type byte of the serialized
empty-data "RuSt" record (82 becomes 18, not an ASCII letter) makes parsing
fail with the type-construction error, not with `InvalidCrc` as the claim
states. -/
theorem bit_flip_counterexample :
    Chunk.try_from [0, 0, 0, 0, 18, 117, 83, 116, 212, 132, 9, 60] =
      Except.error (.typeError (.InvalidByte 18)) ∧
    (match Chunk.try_from [0, 0, 0, 0, 18, 117, 83, 116, 212, 132, 9, 60] with
      | Except.error (ChunkError.InvalidCrc _ _) => False
      | _ => True) :=
  ⟨rfl, True.intro⟩

/-- C8 amended: for a valid serialized record, flipping any single bit of a
data byte yields an `InvalidCrc` failure; flipping any single bit of a type
byte yields `InvalidCrc` when the flipped type is still all ASCII letters, and
the type-construction error otherwise — parsing never succeeds. -/
theorem bit_flip_detected (tb data : List Nat) (j : Nat)
    (htb : tb.length = 4)
    (htv : ∀ b ∈ tb, invalidTypeByte b = false)
    (hdata : ∀ b ∈ data, b < 256)
    (hfit : data.length < 2 ^ 32)
    (hj : j < 8) :
    (∀ dpre db dsuf, data = dpre ++ db :: dsuf →
      Chunk.try_from (u32BE data.length ++
          (tb ++ ((dpre ++ (db ^^^ 2 ^ j) :: dsuf) ++ u32BE (crc32 (tb ++ data))))) =
        Except.error (.InvalidCrc (crc32 (tb ++ data))
          (crc32 (tb ++ (dpre ++ (db ^^^ 2 ^ j) :: dsuf))))) ∧
    (∀ tpre b tsuf, tb = tpre ++ b :: tsuf →
      (∀ x ∈ tpre ++ (b ^^^ 2 ^ j) :: tsuf, invalidTypeByte x = false) →
      Chunk.try_from (u32BE data.length ++
          ((tpre ++ (b ^^^ 2 ^ j) :: tsuf) ++ (data ++ u32BE (crc32 (tb ++ data))))) =
        Except.error (.InvalidCrc (crc32 (tb ++ data))
          (crc32 ((tpre ++ (b ^^^ 2 ^ j) :: tsuf) ++ data)))) ∧
    (∀ tpre b tsuf, tb = tpre ++ b :: tsuf →
      invalidTypeByte (b ^^^ 2 ^ j) = true →
      ∃ b', Chunk.try_from (u32BE data.length ++
          ((tpre ++ (b ^^^ 2 ^ j) :: tsuf) ++ (data ++ u32BE (crc32 (tb ++ data))))) =
        Except.error (.typeError (.InvalidByte b'))) := by
  have hbytes : ∀ x ∈ tb ++ data, x < 2 ^ 32 := by
    intro x hx
    rcases List.mem_append.mp hx with hx | hx
    · have := htv x hx
      simp only [invalidTypeByte, Bool.or_eq_false_iff, decide_eq_false_iff_not] at this
      omega
    · have := hdata x hx
      omega
  have hcrcv : crc32 (tb ++ data) < 2 ^ 32 := crc32_lt hbytes
  refine ⟨?_, ?_, ?_⟩
  · intro dpre db dsuf hdd
    subst hdd
    have hlen : (dpre ++ db :: dsuf).length = (dpre ++ (db ^^^ 2 ^ j) :: dsuf).length := by
      simp
    rw [hlen,
      Chunk.try_from_framed tb (dpre ++ (db ^^^ 2 ^ j) :: dsuf)
        (crc32 (tb ++ (dpre ++ db :: dsuf))) htb (hlen ▸ hfit) hcrcv,
      ChunkType.try_from_ok_of_valid htv]
    dsimp only
    have hne : crc32 (tb ++ (dpre ++ db :: dsuf)) ≠
        Chunk.calculate_crc ⟨tb⟩ (dpre ++ (db ^^^ 2 ^ j) :: dsuf) := by
      show crc32 (tb ++ (dpre ++ db :: dsuf)) ≠ crc32 (tb ++ (dpre ++ (db ^^^ 2 ^ j) :: dsuf))
      rw [← List.append_assoc, ← List.append_assoc]
      exact (crc32_flip_ne (tb ++ dpre) dsuf db j (by omega)).symm
    rw [if_pos hne]
    rfl
  · intro tpre b tsuf htt hvalid
    have htb' : (tpre ++ (b ^^^ 2 ^ j) :: tsuf).length = 4 := by
      rw [htt] at htb
      simpa using htb
    rw [Chunk.try_from_framed (tpre ++ (b ^^^ 2 ^ j) :: tsuf) data
        (crc32 (tb ++ data)) htb' hfit hcrcv,
      ChunkType.try_from_ok_of_valid hvalid]
    dsimp only
    have hne : crc32 (tb ++ data) ≠
        Chunk.calculate_crc ⟨tpre ++ (b ^^^ 2 ^ j) :: tsuf⟩ data := by
      show crc32 (tb ++ data) ≠ crc32 ((tpre ++ (b ^^^ 2 ^ j) :: tsuf) ++ data)
      rw [htt, List.append_assoc, List.append_assoc, List.cons_append, List.cons_append]
      exact (crc32_flip_ne tpre (tsuf ++ data) b j (by omega)).symm
    rw [if_pos hne]
    rfl
  · intro tpre b tsuf htt hinv
    have htb' : (tpre ++ (b ^^^ 2 ^ j) :: tsuf).length = 4 := by
      rw [htt] at htb
      simpa using htb
    rcases ChunkType.try_from_error_of_invalid
        ⟨b ^^^ 2 ^ j, List.mem_append_right tpre (List.mem_cons_self _ _), hinv⟩
      with ⟨b', hb'⟩
    refine ⟨b', ?_⟩
    rw [Chunk.try_from_framed (tpre ++ (b ^^^ 2 ^ j) :: tsuf) data
        (crc32 (tb ++ data)) htb' hfit hcrcv, hb']

/-- Closed-form instance of `bit_flip_detected`: flipping bit 0 of the single
data byte of a "RuSt" record produces an `InvalidCrc` failure. -/
theorem bit_flip_detected_witness :
    Chunk.try_from (u32BE ([0] : List Nat).length ++
        (rustCode ++ (([] ++ (0 ^^^ 2 ^ 0) :: []) ++ u32BE (crc32 (rustCode ++ [0]))))) =
      Except.error (.InvalidCrc (crc32 (rustCode ++ [0]))
        (crc32 (rustCode ++ ([] ++ (0 ^^^ 2 ^ 0) :: [])))) :=
  (bit_flip_detected rustCode [0] 0 (by decide) (by decide) (by decide) (by decide)
    (by decide)).1 [] 0 [] rfl

/-- C9 counterexample: the secret-message payload is 42 bytes, not 44, and the
freshly built record's length is 42, not 44. -/
theorem secret_scenario_counterexample :
    secretMessage.length = 42 ∧
    (Chunk.new ⟨rustCode⟩ secretMessage).length = 42 ∧
    decide ((Chunk.new ⟨rustCode⟩ secretMessage).length = 44) = false := by
  refine ⟨by decide, by decide, by decide⟩

/-- C9 amended: for the type code "RuSt" and the 42-byte secret-message data,
the constructed record has length 42 and crc 2882656334, and parsing the
big-endian framing of those fields succeeds and reproduces them exactly. -/
theorem secret_scenario :
    secretMessage.length = 42 ∧
    (Chunk.new ⟨rustCode⟩ secretMessage).length = 42 ∧
    (Chunk.new ⟨rustCode⟩ secretMessage).crc = 2882656334 ∧
    Chunk.try_from (u32BE 42 ++ (rustCode ++ (secretMessage ++ u32BE 2882656334))) =
      Except.ok (Chunk.mk 42 ⟨rustCode⟩ secretMessage 2882656334) := by
  refine ⟨by decide, by decide, by decide, by rfl⟩

/-- C10 counterexample: on the serialized empty-data "RuSt" record followed by
one trailing byte, the current parser succeeds while the earlier revision
fails, so the two revisions are not equivalent. -/
theorem parser_equivalence_counterexample :
    Chunk.try_from ([0, 0, 0, 0, 82, 117, 83, 116, 212, 132, 9, 60] ++ [0]) =
      Except.ok (Chunk.mk 0 ⟨rustCode⟩ [] 3565422908) ∧
    Chunk.try_from_old ([0, 0, 0, 0, 82, 117, 83, 116, 212, 132, 9, 60] ++ [0]) =
      Except.error (.NonMatchingDataLength 0 1) := by
  exact ⟨by rfl, by rfl⟩

/-- C10 amended: the earlier revision refines the current one — whenever the
earlier parser succeeds, the current parser succeeds with the identical
record, and whenever the current parser fails, the earlier one fails too.
The two disagree exactly on inputs with trailing bytes after the crc, which
the earlier revision rejects and the current one ignores. -/
theorem parser_refinement (v : List Nat) :
    (∀ c, Chunk.try_from_old v = Except.ok c → Chunk.try_from v = Except.ok c) ∧
    (∀ e, Chunk.try_from v = Except.error e →
      ∃ e', Chunk.try_from_old v = Except.error e') := by
  have main : ∀ c, Chunk.try_from_old v = Except.ok c → Chunk.try_from v = Except.ok c := by
    intro c h
    simp only [Chunk.try_from_old] at h
    split at h
    · simp at h
    rename_i h1
    split at h
    · simp at h
    rename_i h2
    split at h
    · simp at h
    rename_i ct hct
    split at h
    · simp at h
    rename_i hlen
    split at h
    · simp at h
    rename_i hcrc
    have hL : v.length - 4 - 4 = u32FromBE (v.take 4) + 4 := by
      have hx := Decidable.not_not.mp hlen
      simpa [List.length_drop] using hx
    have hd4 : (((v.drop 4).drop 4).drop (u32FromBE (v.take 4))).take 4 =
        ((v.drop 4).drop 4).drop (u32FromBE (v.take 4)) := by
      apply List.take_of_length_le
      simp only [List.length_drop]
      omega
    simp only [Chunk.try_from]
    rw [if_neg h1, if_neg h2, hct]
    dsimp only
    rw [if_neg (by simp only [List.length_drop]; omega),
      if_neg (by simp only [List.length_drop]; omega), hd4, if_neg hcrc]
    exact h
  refine ⟨main, ?_⟩
  intro e he
  cases ho : Chunk.try_from_old v with
  | error e' => exact ⟨e', rfl⟩
  | ok c =>
    rw [main c ho] at he
    simp at he

/-- Closed-form instance of `parser_refinement`: the exactly-sized serialized
empty-data "RuSt" record parses identically under both revisions. -/
theorem parser_refinement_witness :
    Chunk.try_from [0, 0, 0, 0, 82, 117, 83, 116, 212, 132, 9, 60] =
      Except.ok (Chunk.mk 0 ⟨rustCode⟩ [] 3565422908) :=
  (parser_refinement [0, 0, 0, 0, 82, 117, 83, 116, 212, 132, 9, 60]).1
    (Chunk.mk 0 ⟨rustCode⟩ [] 3565422908) (by rfl)
